import Mathlib

/-!
Verification of the `spongefish` transcript and duplex-sponge library.

The development shallowly embeds the Rust sources:
  * `src/spongefish/src/pattern/interaction.rs`
  * `src/spongefish/src/pattern/interaction_pattern.rs`
  * `src/spongefish/src/pattern/pattern_state.rs`
  * `src/spongefish/src/pattern/pattern_player.rs`
  * `src/spongefish/src/duplex_sponge/mod.rs`

Rust `&'static str` values (labels, type names) are modelled as their byte
sequences (`List Nat`), matching both `str::len` (a byte count) and the byte
string that `format!` ultimately produces for hashing.  Machine integers that
only ever hold small indices (`usize` positions, lengths) are modelled as
`Nat`; the one place the source uses a signed counter (`indentation` in the
`Display` impl) is modelled as `Int` with Rust's empty-range-for-negative
semantics made explicit via `Int.toNat`.
-/

namespace Spongefish

deriving instance DecidableEq for Except

/-- `Hierarchy` from `interaction.rs`: nesting role of an interaction. -/
inductive Hierarchy
  | Atomic
  | Begin
  | End
deriving DecidableEq, Repr

/-- `Kind` from `interaction.rs`: the kind of prover-verifier interaction. -/
inductive Kind
  | Protocol
  | Public
  | Message
  | Hint
  | Challenge
deriving DecidableEq, Repr

/-- `Length` from `interaction.rs`: length class of the carried value. -/
inductive Length
  | None
  | Scalar
  | Fixed (size : Nat)
  | Dynamic
deriving DecidableEq, Repr

/-- `Interaction` from `interaction.rs`.  `label` and `type_name` are the
byte sequences of the Rust `&'static str` fields. -/
structure Interaction where
  hierarchy : Hierarchy
  kind : Kind
  label : List Nat
  type_name : List Nat
  length : Length
deriving DecidableEq, Repr

/-- `Interaction::closes` from `interaction.rs`: `self` is an `End` closing
the `Begin` `other` (kind, label, type name and length all equal). -/
def Interaction.closes (self other : Interaction) : Bool :=
  self.hierarchy = Hierarchy.End
    && other.hierarchy = Hierarchy.Begin
    && self.kind = other.kind
    && self.label = other.label
    && self.type_name = other.type_name
    && self.length = other.length

/-- `TranscriptError` from `interaction_pattern.rs`.  The Rust field `end`
is a Lean keyword and is rendered `e`; `begin` is rendered `b`. -/
inductive TranscriptError
  | MissingBegin (position : Nat) (e : Interaction)
  | InvalidKind (begin_position : Nat) (b : Interaction)
      (interaction_position : Nat) (interaction : Interaction)
  | MismatchedBeginEnd (begin_position : Nat) (b : Interaction)
      (end_position : Nat) (e : Interaction)
  | MissingEnd (position : Nat) (b : Interaction)
deriving DecidableEq, Repr

/-- The loop of `InteractionPattern::validate` from `interaction_pattern.rs`.

`total` is `self.interactions.len()` (used verbatim by the source in the
`MismatchedBeginEnd` arm), `pos` the enumeration index and `stack` the stack
of open `Begin`s with the innermost at the head (a Rust `Vec` pushed and
popped at its end). -/
def validateAux (total : Nat) : List Interaction → Nat → List (Nat × Interaction) →
    Except TranscriptError Unit
  | [], _, [] => .ok ()
  | [], _, (p, b) :: _ => .error (.MissingEnd p b)
  | i :: rest, pos, stack =>
    match i.hierarchy with
    | Hierarchy.Begin => validateAux total rest (pos + 1) ((pos, i) :: stack)
    | Hierarchy.End =>
      match stack with
      | [] => .error (.MissingBegin pos i)
      | (bpos, b) :: stack' =>
        if i.closes b then validateAux total rest (pos + 1) stack'
        else .error (.MismatchedBeginEnd bpos b total i)
    | Hierarchy.Atomic =>
      match stack with
      | [] => validateAux total rest (pos + 1) []
      | (bpos, b) :: _ =>
        if b.kind ≠ Kind.Protocol ∧ b.kind ≠ i.kind then
          .error (.InvalidKind bpos b pos i)
        else validateAux total rest (pos + 1) stack

/-- `InteractionPattern::validate` applied to an interaction list. -/
def validate (interactions : List Interaction) : Except TranscriptError Unit :=
  validateAux interactions.length interactions 0 []

/-- `InteractionPattern` from `interaction_pattern.rs`: a validated sequence
of interactions (validation is enforced by `InteractionPattern.new`). -/
structure InteractionPattern where
  interactions : List Interaction
deriving DecidableEq, Repr

/-- `InteractionPattern::new`: validate, then wrap. -/
def InteractionPattern.new (interactions : List Interaction) :
    Except TranscriptError InteractionPattern :=
  match validate interactions with
  | .ok () => .ok ⟨interactions⟩
  | .error e => .error e

/-! ### Display rendering (`impl Display` in `interaction.rs` / `interaction_pattern.rs`)

Rendered text is modelled as the list of bytes `format!` produces.  ASCII
tokens are spelled out as byte lists; `32` is a space, `10` a newline and
`48`..`57` the digits. -/

/-- Byte string "Atomic". -/
def hierarchyAtomicTok : List Nat := [65, 116, 111, 109, 105, 99]

/-- Byte string "Begin". -/
def hierarchyBeginTok : List Nat := [66, 101, 103, 105, 110]

/-- Byte string "End". -/
def hierarchyEndTok : List Nat := [69, 110, 100]

/-- Byte string "Protocol". -/
def kindProtocolTok : List Nat := [80, 114, 111, 116, 111, 99, 111, 108]

/-- Byte string "Public". -/
def kindPublicTok : List Nat := [80, 117, 98, 108, 105, 99]

/-- Byte string "Message". -/
def kindMessageTok : List Nat := [77, 101, 115, 115, 97, 103, 101]

/-- Byte string "Hint". -/
def kindHintTok : List Nat := [72, 105, 110, 116]

/-- Byte string "Challenge". -/
def kindChallengeTok : List Nat := [67, 104, 97, 108, 108, 101, 110, 103, 101]

/-- Byte string "None". -/
def lengthNoneTok : List Nat := [78, 111, 110, 101]

/-- Byte string "Scalar". -/
def lengthScalarTok : List Nat := [83, 99, 97, 108, 97, 114]

/-- Byte string "Fixed(". -/
def lengthFixedTok : List Nat := [70, 105, 120, 101, 100, 40]

/-- Byte string "Dynamic". -/
def lengthDynamicTok : List Nat := [68, 121, 110, 97, 109, 105, 99]

/-- Byte string "Spongefish Transcript (". -/
def headerLeftTok : List Nat :=
  [83, 112, 111, 110, 103, 101, 102, 105, 115, 104, 32, 84, 114, 97, 110,
   115, 99, 114, 105, 112, 116, 32, 40]

/-- Byte string " interactions)". -/
def headerRightTok : List Nat :=
  [32, 105, 110, 116, 101, 114, 97, 99, 116, 105, 111, 110, 115, 41]

/-- Digit-accumulator loop for decimal rendering; `fuel` only drives the
structural recursion and any `fuel > n` yields the digits of `n` (shown in
`decBytes_eq`). -/
def decBytesCore : Nat → Nat → List Nat → List Nat
  | 0, _, acc => acc
  | fuel + 1, n, acc =>
    if n < 10 then (48 + n) :: acc
    else decBytesCore fuel (n / 10) ((48 + n % 10) :: acc)

/-- Decimal rendering of a `usize`, as produced by Rust's `Display for usize`:
most significant digit first, no sign, no padding. -/
def decBytes (n : Nat) : List Nat := decBytesCore (n + 1) n []

theorem decBytesCore_acc (n : Nat) : ∀ (fuel : Nat) (acc : List Nat),
    n < fuel → decBytesCore fuel n acc = decBytes n ++ acc := by
  induction n using Nat.strong_induction_on with
  | _ n ih =>
    intro fuel acc hlt
    match fuel with
    | f + 1 =>
      rw [decBytesCore]
      by_cases h10 : n < 10
      · rw [if_pos h10, decBytes, decBytesCore, if_pos h10]
        rfl
      · rw [if_neg h10,
          ih (n / 10) (Nat.div_lt_self (by omega) (by omega)) f _ (by omega)]
        conv_rhs => rw [decBytes, decBytesCore, if_neg h10,
          ih (n / 10) (Nat.div_lt_self (by omega) (by omega)) n _ (by omega)]
        simp

/-- The recurrence the Rust decimal formatter satisfies. -/
theorem decBytes_eq (n : Nat) :
    decBytes n = if n < 10 then [48 + n] else decBytes (n / 10) ++ [48 + n % 10] := by
  by_cases h10 : n < 10
  · rw [if_pos h10, decBytes, decBytesCore, if_pos h10]
  · rw [if_neg h10, decBytes, decBytesCore, if_neg h10,
      decBytesCore_acc (n / 10) n _ (by omega)]

/-- `impl Display for Hierarchy` from `interaction.rs`. -/
def hierarchyBytes : Hierarchy → List Nat
  | Hierarchy.Atomic => hierarchyAtomicTok
  | Hierarchy.Begin => hierarchyBeginTok
  | Hierarchy.End => hierarchyEndTok

/-- `impl Display for Kind` from `interaction.rs`. -/
def kindBytes : Kind → List Nat
  | Kind.Protocol => kindProtocolTok
  | Kind.Public => kindPublicTok
  | Kind.Message => kindMessageTok
  | Kind.Hint => kindHintTok
  | Kind.Challenge => kindChallengeTok

/-- `impl Display for Length` from `interaction.rs`; `Fixed(size)` renders
the size in decimal between the parentheses (`41` is the byte of `)`). -/
def lengthBytes : Length → List Nat
  | Length.None => lengthNoneTok
  | Length.Scalar => lengthScalarTok
  | Length.Fixed size => lengthFixedTok ++ decBytes size ++ [41]
  | Length.Dynamic => lengthDynamicTok

/-- `impl Display for Interaction`, alternate (`{:#}`) mode, from
`interaction.rs`: `"{hierarchy} {kind} {label.len()} {label} {length}"`.
The type name is left out. -/
def interactionAltBytes (i : Interaction) : List Nat :=
  hierarchyBytes i.hierarchy ++ [32] ++ kindBytes i.kind ++ [32]
    ++ decBytes i.label.length ++ [32] ++ i.label ++ [32] ++ lengthBytes i.length

/-- `impl Display for Interaction`, non-alternate mode, from
`interaction.rs`: `"{hierarchy} {kind} {label} {length} {type_name}"`. -/
def interactionPlainBytes (i : Interaction) : List Nat :=
  hierarchyBytes i.hierarchy ++ [32] ++ kindBytes i.kind ++ [32]
    ++ i.label ++ [32] ++ lengthBytes i.length ++ [32] ++ i.type_name

/-- Rust's `{position:0>width$}` formatting: left-pad with `0` bytes up to
`width`, never truncating. -/
def zeroPad (width : Nat) (s : List Nat) : List Nat :=
  List.replicate (width - s.length) 48 ++ s

/-- The per-interaction loop of `impl Display for InteractionPattern` from
`interaction_pattern.rs` in alternate mode.  Each line is the zero-padded
position, a space, two spaces per indentation level, the alternate
interaction rendering, and a newline.  The source decrements `indentation`
(an `i32`) before printing an `End` line and increments it after a `Begin`
line; `0..indentation` on a negative `i32` is an empty range, hence
`Int.toNat`. -/
def renderLines (width : Nat) : Nat → Int → List Interaction → List Nat
  | _, _, [] => []
  | pos, indentation, i :: rest =>
    let ind1 : Int := if i.hierarchy = Hierarchy.End then indentation - 1 else indentation
    let ind2 : Int := if i.hierarchy = Hierarchy.Begin then ind1 + 1 else ind1
    zeroPad width (decBytes pos) ++ [32] ++ List.replicate (2 * ind1.toNat) 32
      ++ interactionAltBytes i ++ [10] ++ renderLines width (pos + 1) ind2 rest

/-- The header line `"Spongefish Transcript ({length} interactions)\n"`. -/
def headerBytes (n : Nat) : List Nat :=
  headerLeftTok ++ decBytes n ++ headerRightTok ++ [10]

/-- `impl Display for InteractionPattern` in alternate mode (the canonical
rendering hashed by `pattern_hash`): header line, then one line per
interaction with `width = length.saturating_sub(1).to_string().len()`
(`Nat` subtraction is saturating). -/
def renderAlt (interactions : List Interaction) : List Nat :=
  headerBytes interactions.length
    ++ renderLines (decBytes (interactions.length - 1)).length 0 0 interactions

/-- The canonical rendering of an `InteractionPattern`. -/
def InteractionPattern.renderCanonical (p : InteractionPattern) : List Nat :=
  renderAlt p.interactions

/-- `InteractionPattern::pattern_hash` from `interaction_pattern.rs`: the
SHA3-256 digest of the canonical rendering.  SHA3-256 comes from the external
`sha3` crate (not part of this repository), so it is taken as a parameter
`H`; every statement about hash equality below holds for arbitrary `H`. -/
def InteractionPattern.pattern_hash (H : List Nat → List Nat)
    (p : InteractionPattern) : List Nat :=
  H p.renderCanonical

/-! ### A decoder for the canonical rendering

To show that the canonical rendering is injective with respect to the
structure it commits to (hierarchy, kind, label and length of every
interaction — everything except the type name), we build a decoder and prove
the decode-of-render round trip.  Injectivity of the rendering on that
projection is an immediate consequence. -/

/-- The structural content the canonical rendering commits to: everything
in an `Interaction` except its `type_name`. -/
structure InteractionShape where
  hierarchy : Hierarchy
  kind : Kind
  label : List Nat
  length : Length
deriving DecidableEq, Repr

/-- Forget the `type_name` of an interaction. -/
def Interaction.shape (i : Interaction) : InteractionShape :=
  ⟨i.hierarchy, i.kind, i.label, i.length⟩

/-- ASCII decimal digit test. -/
def isDigit (b : Nat) : Bool := 48 ≤ b && b ≤ 57

/-- Space or ASCII digit: the byte classes of position fields, field
separators and indentation. -/
def isSpaceOrDigit (b : Nat) : Bool := b = 32 || isDigit b

/-- Strip an expected token from the front of the input. -/
def stripTok : List Nat → List Nat → Option (List Nat)
  | [], bs => some bs
  | _ :: _, [] => none
  | t :: ts, b :: bs => if b = t then stripTok ts bs else none

/-- Read a nonempty maximal run of digits and interpret it in decimal. -/
def parseDec (bs : List Nat) : Option (Nat × List Nat) :=
  match bs.takeWhile isDigit with
  | [] => none
  | ds => some (ds.foldl (fun a d => 10 * a + (d - 48)) 0, bs.dropWhile isDigit)

/-- Decode a hierarchy token. -/
def parseHier (bs : List Nat) : Option (Hierarchy × List Nat) :=
  match stripTok hierarchyAtomicTok bs with
  | some r => some (Hierarchy.Atomic, r)
  | none =>
  match stripTok hierarchyBeginTok bs with
  | some r => some (Hierarchy.Begin, r)
  | none =>
  match stripTok hierarchyEndTok bs with
  | some r => some (Hierarchy.End, r)
  | none => none

/-- Decode a kind token. -/
def parseKind (bs : List Nat) : Option (Kind × List Nat) :=
  match stripTok kindProtocolTok bs with
  | some r => some (Kind.Protocol, r)
  | none =>
  match stripTok kindPublicTok bs with
  | some r => some (Kind.Public, r)
  | none =>
  match stripTok kindMessageTok bs with
  | some r => some (Kind.Message, r)
  | none =>
  match stripTok kindHintTok bs with
  | some r => some (Kind.Hint, r)
  | none =>
  match stripTok kindChallengeTok bs with
  | some r => some (Kind.Challenge, r)
  | none => none

/-- Decode a length token. -/
def parseLen (bs : List Nat) : Option (Length × List Nat) :=
  match stripTok lengthNoneTok bs with
  | some r => some (Length.None, r)
  | none =>
  match stripTok lengthScalarTok bs with
  | some r => some (Length.Scalar, r)
  | none =>
  match stripTok lengthDynamicTok bs with
  | some r => some (Length.Dynamic, r)
  | none =>
  match stripTok lengthFixedTok bs with
  | some r =>
    match parseDec r with
    | some (n, r') =>
      match stripTok [41] r' with
      | some r'' => some (Length.Fixed n, r'')
      | none => none
    | none => none
  | none => none

/-- Decode one rendered interaction line.  The position field, the separator
after it and the indentation are all spaces and digits and are skipped in one
sweep; the hierarchy token that follows starts with a letter, so the sweep
stops exactly there. -/
def parseRecord (bs : List Nat) :
    Option (InteractionShape × List Nat) :=
  match parseHier (bs.dropWhile isSpaceOrDigit) with
  | none => none
  | some (h, r1) =>
  match stripTok [32] r1 with
  | none => none
  | some r2 =>
  match parseKind r2 with
  | none => none
  | some (k, r3) =>
  match stripTok [32] r3 with
  | none => none
  | some r4 =>
  match parseDec r4 with
  | none => none
  | some (n, r5) =>
  match stripTok [32] r5 with
  | none => none
  | some r6 =>
  if n ≤ r6.length then
    match stripTok [32] (r6.drop n) with
    | none => none
    | some r7 =>
    match parseLen r7 with
    | none => none
    | some (len, r8) =>
    match stripTok [10] r8 with
    | none => none
    | some r9 => some (⟨h, k, r6.take n, len⟩, r9)
  else none

/-- Decode a sequence of rendered interaction lines until the input is
exhausted.  `fuel` bounds the recursion; every line holds at least its
newline byte, so `fuel = bs.length` always suffices. -/
def parseRecordList (fuel : Nat) (bs : List Nat) : Option (List InteractionShape) :=
  if bs = [] then some [] else
  match fuel with
  | 0 => none
  | fuel + 1 =>
    match parseRecord bs with
    | none => none
    | some (x, rest) =>
      match parseRecordList fuel rest with
      | none => none
      | some xs => some (x :: xs)

/-- Decode a full canonical rendering back into the committed structure. -/
def parsePattern (bs : List Nat) : Option (List InteractionShape) :=
  match stripTok headerLeftTok bs with
  | none => none
  | some r1 =>
  match parseDec r1 with
  | none => none
  | some (_, r2) =>
  match stripTok (headerRightTok ++ [10]) r2 with
  | none => none
  | some r3 => parseRecordList r3.length r3

/-! ### Round-trip: the decoder inverts the canonical rendering -/

theorem decBytes_ne_nil (n : Nat) : decBytes n ≠ [] := by
  rw [decBytes_eq]
  split <;> simp

theorem decBytes_digits (n : Nat) :
    ∀ b ∈ decBytes n, isDigit b = true := by
  induction n using Nat.strong_induction_on with
  | _ n ih =>
    rw [decBytes_eq]
    split
    · next h =>
      intro b hb
      simp only [List.mem_singleton] at hb
      subst hb
      simp only [isDigit, decide_eq_true_eq, Bool.and_eq_true]
      omega
    · next h =>
      intro b hb
      rcases List.mem_append.mp hb with h1 | h2
      · exact ih (n / 10) (Nat.div_lt_self (by omega) (by omega)) b h1
      · simp only [List.mem_singleton] at h2
        subst h2
        have : n % 10 < 10 := Nat.mod_lt _ (by omega)
        simp only [isDigit, decide_eq_true_eq, Bool.and_eq_true]
        omega

theorem decBytes_foldl (n : Nat) : ∀ acc : Nat,
    (decBytes n).foldl (fun a d => 10 * a + (d - 48)) acc
      = acc * 10 ^ (decBytes n).length + n := by
  induction n using Nat.strong_induction_on with
  | _ n ih =>
    intro acc
    rw [decBytes_eq]
    split
    · next h =>
      simp only [List.foldl_cons, List.foldl_nil, List.length_singleton]
      have : 48 + n - 48 = n := by omega
      rw [this]
      ring
    · next h =>
      rw [List.foldl_append, List.length_append,
        ih (n / 10) (Nat.div_lt_self (by omega) (by omega)) acc]
      simp only [List.foldl_cons, List.foldl_nil, List.length_singleton]
      have h1 : 48 + n % 10 - 48 = n % 10 := by omega
      rw [h1, pow_add, pow_one, ← Nat.mul_assoc]
      have h2 : 10 * (n / 10) + n % 10 = n := Nat.div_add_mod n 10
      omega

theorem takeWhile_append_stop (p : Nat → Bool) (xs : List Nat) (y : Nat)
    (ys : List Nat) (hxs : ∀ x ∈ xs, p x = true) (hy : p y = false) :
    (xs ++ y :: ys).takeWhile p = xs := by
  induction xs with
  | nil => simp [List.takeWhile_cons, hy]
  | cons a xs ihx =>
    have ha : p a = true := hxs a (List.mem_cons_self a xs)
    simp only [List.cons_append, List.takeWhile_cons, ha, if_true]
    rw [ihx fun x hx => hxs x (List.mem_cons_of_mem a hx)]

theorem dropWhile_append_stop (p : Nat → Bool) (xs : List Nat) (y : Nat)
    (ys : List Nat) (hxs : ∀ x ∈ xs, p x = true) (hy : p y = false) :
    (xs ++ y :: ys).dropWhile p = y :: ys := by
  induction xs with
  | nil => simp [List.dropWhile_cons, hy]
  | cons a xs ihx =>
    have ha : p a = true := hxs a (List.mem_cons_self a xs)
    simp only [List.cons_append, List.dropWhile_cons, ha, if_true]
    exact ihx fun x hx => hxs x (List.mem_cons_of_mem a hx)

theorem parseDec_spec (n y : Nat) (ys : List Nat) (hy : isDigit y = false) :
    parseDec (decBytes n ++ y :: ys) = some (n, y :: ys) := by
  have htake := takeWhile_append_stop isDigit (decBytes n) y ys
    (decBytes_digits n) hy
  have hdrop := dropWhile_append_stop isDigit (decBytes n) y ys
    (decBytes_digits n) hy
  unfold parseDec
  rw [htake, hdrop]
  rcases hd : decBytes n with _ | ⟨b, bs⟩
  · exact absurd hd (decBytes_ne_nil n)
  · have hf := decBytes_foldl n 0
    rw [hd] at hf
    simp only [List.foldl_cons, Nat.zero_mul, Nat.zero_add, Nat.mul_zero,
      Nat.add_zero] at hf
    simp [hd, hf]

theorem stripTok_append (t r : List Nat) : stripTok t (t ++ r) = some r := by
  induction t with
  | nil => rfl
  | cons a t iht => simp [stripTok, iht]

theorem parseHier_spec (h : Hierarchy) (r : List Nat) :
    parseHier (hierarchyBytes h ++ r) = some (h, r) := by
  cases h <;>
    simp [parseHier, hierarchyBytes, hierarchyAtomicTok, hierarchyBeginTok,
      hierarchyEndTok, stripTok]

theorem parseKind_spec (k : Kind) (r : List Nat) :
    parseKind (kindBytes k ++ r) = some (k, r) := by
  cases k <;>
    simp [parseKind, kindBytes, kindProtocolTok, kindPublicTok, kindMessageTok,
      kindHintTok, kindChallengeTok, stripTok]

theorem parseLen_spec (l : Length) (r : List Nat) :
    parseLen (lengthBytes l ++ r) = some (l, r) := by
  cases l with
  | Fixed size =>
    have h41 : isDigit 41 = false := by decide
    have hdec := parseDec_spec size 41 r h41
    simp [parseLen, lengthBytes, lengthNoneTok, lengthScalarTok,
      lengthDynamicTok, lengthFixedTok, stripTok, List.append_assoc] at hdec ⊢
    simp [hdec, stripTok]
  | _ =>
    simp [parseLen, lengthBytes, lengthNoneTok, lengthScalarTok,
      lengthDynamicTok, lengthFixedTok, stripTok]

theorem hierarchyBytes_head (h : Hierarchy) :
    ∃ b tl, hierarchyBytes h = b :: tl ∧ isSpaceOrDigit b = false := by
  cases h
  · exact ⟨_, _, rfl, by decide⟩
  · exact ⟨_, _, rfl, by decide⟩
  · exact ⟨_, _, rfl, by decide⟩

theorem sweep_to_alt (w pos m : Nat) (i : Interaction) (z : List Nat) :
    (zeroPad w (decBytes pos) ++ [32] ++ List.replicate m 32
      ++ interactionAltBytes i ++ z).dropWhile isSpaceOrDigit
      = interactionAltBytes i ++ z := by
  obtain ⟨b, tl, hbs, hb⟩ := hierarchyBytes_head i.hierarchy
  have hall : ∀ x ∈ zeroPad w (decBytes pos) ++ [32] ++ List.replicate m 32,
      isSpaceOrDigit x = true := by
    intro x hx
    simp only [zeroPad, List.append_assoc, List.mem_append, List.mem_replicate,
      List.mem_singleton, List.mem_cons, List.not_mem_nil, or_false] at hx
    rcases hx with hx | hx | hx | hx
    · rw [hx.2]; decide
    · simp [isSpaceOrDigit, decBytes_digits pos x hx]
    · rw [hx]; decide
    · rw [hx.2]; decide
  have harg : zeroPad w (decBytes pos) ++ [32] ++ List.replicate m 32
      ++ interactionAltBytes i ++ z
      = (zeroPad w (decBytes pos) ++ [32] ++ List.replicate m 32)
        ++ (b :: (tl ++ ([32] ++ kindBytes i.kind ++ [32]
          ++ decBytes i.label.length ++ [32] ++ i.label ++ [32]
          ++ lengthBytes i.length ++ z))) := by
    simp only [interactionAltBytes, hbs, List.append_assoc, List.cons_append]
  rw [harg, dropWhile_append_stop isSpaceOrDigit _ b _ hall hb, ← List.cons_append,
    ← hbs]
  simp [interactionAltBytes, List.append_assoc]

theorem parseRecord_spec (w pos m : Nat) (i : Interaction) (rest : List Nat) :
    parseRecord (zeroPad w (decBytes pos) ++ [32] ++ List.replicate m 32
      ++ interactionAltBytes i ++ [10] ++ rest) = some (i.shape, rest) := by
  have h32 : isDigit 32 = false := by decide
  have hsweep := sweep_to_alt w pos m i ([10] ++ rest)
  rw [parseRecord]
  rw [show zeroPad w (decBytes pos) ++ [32] ++ List.replicate m 32
      ++ interactionAltBytes i ++ [10] ++ rest
      = zeroPad w (decBytes pos) ++ [32] ++ List.replicate m 32
        ++ interactionAltBytes i ++ ([10] ++ rest) from by
    simp [List.append_assoc]]
  rw [hsweep]
  rw [show interactionAltBytes i ++ ([10] ++ rest)
      = hierarchyBytes i.hierarchy ++ (32 :: (kindBytes i.kind
        ++ 32 :: (decBytes i.label.length ++ 32 :: (i.label
        ++ 32 :: (lengthBytes i.length ++ 10 :: rest))))) from by
    simp [interactionAltBytes, List.append_assoc]]
  rw [parseHier_spec]
  simp only [stripTok, if_pos]
  rw [parseKind_spec]
  simp only [stripTok, if_pos]
  rw [parseDec_spec i.label.length 32 _ h32]
  simp only [stripTok, if_pos]
  have hlen : i.label.length
      ≤ (i.label ++ 32 :: (lengthBytes i.length ++ 10 :: rest)).length := by
    simp [List.length_append]
  rw [if_pos hlen, List.drop_left, List.take_left]
  simp only [stripTok, if_pos]
  rw [parseLen_spec]
  simp only [stripTok, if_pos]
  rfl

theorem parseRecordList_spec (is : List Interaction) :
    ∀ (w pos : Nat) (ind : Int) (fuel : Nat), is.length ≤ fuel →
    parseRecordList fuel (renderLines w pos ind is)
      = some (is.map Interaction.shape) := by
  induction is with
  | nil =>
    intro w pos ind fuel _
    rw [renderLines, parseRecordList.eq_def]
    simp
  | cons i rest ih =>
    intro w pos ind fuel h
    match fuel with
    | 0 => simp at h
    | f + 1 =>
      simp only [renderLines]
      have hne : zeroPad w (decBytes pos) ++ [32]
          ++ List.replicate (2 * (if i.hierarchy = Hierarchy.End
              then ind - 1 else ind).toNat) 32
          ++ interactionAltBytes i ++ [10]
          ++ renderLines w (pos + 1)
            (if i.hierarchy = Hierarchy.Begin
              then (if i.hierarchy = Hierarchy.End then ind - 1 else ind) + 1
              else (if i.hierarchy = Hierarchy.End then ind - 1 else ind)) rest
          ≠ [] := by
        simp [zeroPad, List.append_eq_nil]
      rw [parseRecordList, if_neg hne]
      simp only [parseRecord_spec, ih w (pos + 1) _ f (by simpa using h),
        List.map_cons]

theorem length_le_renderLines (is : List Interaction) :
    ∀ (w pos : Nat) (ind : Int), is.length ≤ (renderLines w pos ind is).length := by
  induction is with
  | nil => simp [renderLines]
  | cons i rest ih =>
    intro w pos ind
    simp only [renderLines, List.length_append, List.length_cons]
    have := ih w (pos + 1)
      (if i.hierarchy = Hierarchy.Begin
        then (if i.hierarchy = Hierarchy.End then ind - 1 else ind) + 1
        else (if i.hierarchy = Hierarchy.End then ind - 1 else ind))
    omega

theorem parsePattern_spec (is : List Interaction) :
    parsePattern (renderAlt is) = some (is.map Interaction.shape) := by
  have h32 : isDigit 32 = false := by decide
  have hhr : headerRightTok ++ [10]
      = 32 :: [105, 110, 116, 101, 114, 97, 99, 116, 105, 111, 110, 115, 41, 10] := rfl
  have hbody := parseRecordList_spec is
    (decBytes (is.length - 1)).length 0 0
    (renderLines (decBytes (is.length - 1)).length 0 0 is).length
    (length_le_renderLines is _ 0 0)
  have hrender : renderAlt is = headerLeftTok ++ (decBytes is.length
      ++ (32 :: ([105, 110, 116, 101, 114, 97, 99, 116, 105, 111, 110, 115, 41, 10]
        ++ renderLines (decBytes (is.length - 1)).length 0 0 is))) := by
    simp [renderAlt, headerBytes, headerRightTok, List.append_assoc]
  have hsplit : (32 : Nat)
        :: ([105, 110, 116, 101, 114, 97, 99, 116, 105, 111, 110, 115, 41, 10]
          ++ renderLines (decBytes (is.length - 1)).length 0 0 is)
      = (headerRightTok ++ [10])
        ++ renderLines (decBytes (is.length - 1)).length 0 0 is := by
    rw [hhr]; rfl
  rw [parsePattern, hrender, stripTok_append]
  simp only [parseDec_spec is.length 32 _ h32]
  simp only [hsplit, stripTok_append, hbody]

/-- The canonical rendering only depends on the `shape`s (hierarchy, kind,
label, length) of the interactions. -/
theorem renderLines_shape_congr :
    ∀ (is1 is2 : List Interaction),
      is1.map Interaction.shape = is2.map Interaction.shape →
      ∀ (w pos : Nat) (ind : Int),
        renderLines w pos ind is1 = renderLines w pos ind is2 := by
  intro is1
  induction is1 with
  | nil =>
    intro is2 h w pos ind
    cases is2 with
    | nil => rfl
    | cons j js => simp at h
  | cons i is ih =>
    intro is2 h w pos ind
    cases is2 with
    | nil => simp at h
    | cons j js =>
      simp only [List.map_cons, List.cons.injEq] at h
      obtain ⟨hsh, htl⟩ := h
      have hh : i.hierarchy = j.hierarchy := congrArg InteractionShape.hierarchy hsh
      have hk : i.kind = j.kind := congrArg InteractionShape.kind hsh
      have hl : i.label = j.label := congrArg InteractionShape.label hsh
      have hn : i.length = j.length := congrArg InteractionShape.length hsh
      simp only [renderLines, interactionAltBytes, hh, hk, hl, hn,
        ih js htl w (pos + 1)]

theorem renderAlt_shape_congr (is1 is2 : List Interaction)
    (h : is1.map Interaction.shape = is2.map Interaction.shape) :
    renderAlt is1 = renderAlt is2 := by
  have hlen : is1.length = is2.length := by
    have := congrArg List.length h
    simpa using this
  rw [renderAlt, renderAlt, hlen, renderLines_shape_congr is1 is2 h]

/-- Injectivity of the canonical rendering on shapes, as a biconditional. -/
theorem renderAlt_eq_iff_shape_eq (is1 is2 : List Interaction) :
    renderAlt is1 = renderAlt is2
      ↔ is1.map Interaction.shape = is2.map Interaction.shape := by
  constructor
  · intro h
    have h1 := parsePattern_spec is1
    have h2 := parsePattern_spec is2
    rw [h] at h1
    rw [h1] at h2
    exact Option.some.inj h2
  · exact renderAlt_shape_congr is1 is2

/-! ### `PatternState` (`pattern_state.rs`) and `PatternPlayer` (`pattern_player.rs`)

Rust panics are modelled as `Except` errors.  Where the source mutates
`self.finalized = true` before panicking, the error value carries the player
state at the moment of the panic. -/

/-- `PatternState` from `pattern_state.rs` (the `PhantomData` unit marker is
irrelevant to the recorded data and omitted). -/
structure PatternState where
  interactions : List Interaction
  finalized : Bool
deriving DecidableEq, Repr

/-- `PatternState::new`. -/
def PatternState.new : PatternState := ⟨[], false⟩

/-- The panics `PatternState` can raise. -/
inductive StatePanic
  | alreadyFinalized
  | invalidKind (expected got : Kind)
  | mismatchedBeginEnd (b e : Interaction)
  | missingBegin (e : Interaction)
  | validationFailed (e : TranscriptError)
deriving DecidableEq, Repr

/-- `PatternState::last_open_begin`: reverse scan with a nesting counter
(`stack`), returning the innermost unclosed `Begin`. -/
def last_open_begin_go : List Interaction → Nat → Option Interaction
  | [], _ => none
  | i :: rest, stack =>
    match i.hierarchy with
    | Hierarchy.End => last_open_begin_go rest (stack + 1)
    | Hierarchy.Begin =>
      if stack = 0 then some i else last_open_begin_go rest (stack - 1)
    | Hierarchy.Atomic => last_open_begin_go rest stack

/-- `PatternState::last_open_begin` (the source iterates `.iter().rev()`). -/
def last_open_begin (interactions : List Interaction) : Option Interaction :=
  last_open_begin_go interactions.reverse 0

/-- `PatternState::interact`: the finalized check, then — whenever an open
`Begin` exists — the kind assertion followed by the closing assertion, else
the missing-begin assertion; on success the interaction is appended. -/
def PatternState.interact (st : PatternState) (interaction : Interaction) :
    Except StatePanic PatternState :=
  if st.finalized then .error .alreadyFinalized
  else
    match last_open_begin st.interactions with
    | some b =>
      if ¬ (b.kind = Kind.Protocol ∨ b.kind = interaction.kind) then
        .error (.invalidKind b.kind interaction.kind)
      else if ¬ (interaction.hierarchy ≠ Hierarchy.End ∨ interaction.closes b) then
        .error (.mismatchedBeginEnd b interaction)
      else .ok ⟨st.interactions ++ [interaction], st.finalized⟩
    | none =>
      if interaction.hierarchy = Hierarchy.End then
        .error (.missingBegin interaction)
      else .ok ⟨st.interactions ++ [interaction], st.finalized⟩

/-- `PatternState::finalize`: the finalized check, then full
`InteractionPattern` validation of the accumulated sequence. -/
def PatternState.finalize (st : PatternState) :
    Except StatePanic InteractionPattern :=
  if st.finalized then .error .alreadyFinalized
  else
    match InteractionPattern.new st.interactions with
    | .ok t => .ok t
    | .error e => .error (.validationFailed e)

/-- The destruction-time panic. -/
inductive DropPanic
  | droppedUnfinalized
deriving DecidableEq, Repr

/-- `pattern_state.rs` declares **no** `Drop` implementation for
`PatternState` (its doc comment claims "Panics on `Drop` if there are
unfinished interactions", but no such code exists); dropping therefore runs
no check and never panics, which this definition records. -/
def PatternState.dropCheck (_ : PatternState) : Except DropPanic Unit :=
  .ok ()

/-- `PatternPlayer` from `pattern_player.rs`; the `Arc` only provides shared
ownership of the immutable pattern and is dropped from the model. -/
structure PatternPlayer where
  pattern : InteractionPattern
  position : Nat
  finalized : Bool
deriving DecidableEq, Repr

/-- `PatternPlayer::new`. -/
def PatternPlayer.new (pattern : InteractionPattern) : PatternPlayer :=
  ⟨pattern, 0, false⟩

/-- The panics `PatternPlayer` can raise. -/
inductive PlayerPanic
  | alreadyFinalized
  | positionOutOfBounds
  | noMoreExpected (received : Interaction)
  | mismatch (received expected : Interaction)
  | notFinished (expected : Interaction)
deriving DecidableEq, Repr

/-- `PatternPlayer::interact`: the finalized check; then cursor lookup — on
exhaustion set `finalized` and panic; then structural comparison — on
mismatch set `finalized` and panic naming received and expected; on match
advance the cursor. -/
def PatternPlayer.interact (pl : PatternPlayer) (interaction : Interaction) :
    Except (PlayerPanic × PatternPlayer) PatternPlayer :=
  if pl.finalized then .error (.alreadyFinalized, pl)
  else
    match pl.pattern.interactions[pl.position]? with
    | none => .error (.noMoreExpected interaction, { pl with finalized := true })
    | some expected =>
      if expected ≠ interaction then
        .error (.mismatch interaction expected, { pl with finalized := true })
      else .ok { pl with position := pl.position + 1 }

/-- `PatternPlayer::finalize`: asserts `position <= len`, then
`!finalized`, then `position >= len` (reporting the next expected
interaction), and finally marks the player finalized. -/
def PatternPlayer.finalize (pl : PatternPlayer) :
    Except (PlayerPanic × PatternPlayer) PatternPlayer :=
  if ¬ (pl.position ≤ pl.pattern.interactions.length) then
    .error (.positionOutOfBounds, pl)
  else if pl.finalized then .error (.alreadyFinalized, pl)
  else if h : pl.position < pl.pattern.interactions.length then
    .error (.notFinished (pl.pattern.interactions.get ⟨pl.position, h⟩), pl)
  else .ok { pl with finalized := true }

/-- `impl Drop for PatternPlayer`: `assert!(self.finalized)`. -/
def PatternPlayer.dropCheck (pl : PatternPlayer) : Except DropPanic Unit :=
  if pl.finalized then .ok () else .error .droppedUnfinalized

/-! ### `DuplexSponge` (`duplex_sponge/mod.rs`)

The permutation state is the flat unit slice the sponge indexes into
(`AsRef<[U]>` / `AsMut<[U]>`); the permutation itself is an arbitrary
function parameter `permute`, and `R` is the rate constant `C::R`.  The
invariant `R ≥ 1` (spec §3: `N > R ≥ 1`) is taken as the argument `hR`,
which also witnesses the loop's termination; failing `assert!` statements
are modelled as `none`. -/

/-- `DuplexSponge<C>` from `duplex_sponge/mod.rs`: the permutation state
plus the two positions. -/
structure DuplexSponge (U : Type) where
  permutation : List U
  absorb_pos : Nat
  squeeze_pos : Nat
deriving DecidableEq, Repr

/-- A Rust slice assignment
`state[pos..pos + chunk.len()].clone_from_slice(chunk)`. -/
def setSlice {U : Type} (state : List U) (pos : Nat) (chunk : List U) :
    List U :=
  state.take pos ++ chunk ++ state.drop (pos + chunk.length)

/-- The `while !input.is_empty()` loop of
`DuplexSponge::absorb_unchecked`: when `absorb_pos == R`, permute and reset
the position without consuming input; otherwise (asserting
`absorb_pos < R`) copy `min(input.len(), R - absorb_pos)` units into the
rate region and advance. -/
def absorbLoop {U : Type} (permute : List U → List U) (R : Nat) (hR : 0 < R)
    (p : List U) (pos : Nat) : List U → Option (List U × Nat)
  | [] => some (p, pos)
  | u :: rest =>
    if hEq : pos = R then absorbLoop permute R hR (permute p) 0 (u :: rest)
    else if h : pos < R then
      absorbLoop permute R hR
        (setSlice p pos ((u :: rest).take (min (u :: rest).length (R - pos))))
        (pos + min (u :: rest).length (R - pos))
        ((u :: rest).drop (min (u :: rest).length (R - pos)))
    else none
termination_by input => 2 * input.length + (if pos = R then 1 else 0)
decreasing_by
  · simp only [hEq]
    have : (0 : Nat) ≠ R := by omega
    simp [this]
  · simp only [List.length_drop, List.length_cons]
    have hmin : 1 ≤ min (rest.length + 1) (R - pos) := by omega
    split <;> omega

/-- `DuplexSponge::absorb_unchecked`: sets `squeeze_pos = R` (any absorb
invalidates pending squeeze output), then runs the absorb loop. -/
def DuplexSponge.absorb_unchecked {U : Type} (permute : List U → List U)
    (R : Nat) (hR : 0 < R) (s : DuplexSponge U) (input : List U) :
    Option (DuplexSponge U) :=
  match absorbLoop permute R hR s.permutation s.absorb_pos input with
  | none => none
  | some (p, pos) => some ⟨p, pos, R⟩

/-- `DuplexSponge::squeeze_unchecked`, recursing on the unfilled remainder
of the output buffer exactly as the source does.  An empty output returns
immediately; otherwise `absorb_pos` is reset to `0`, a pending
`squeeze_pos == R` sentinel triggers a permute, `squeeze_pos < R` is
asserted, and `min(output.len(), R - squeeze_pos)` units are copied out of
the rate region. -/
def DuplexSponge.squeeze_unchecked {U : Type} (permute : List U → List U)
    (R : Nat) (s : DuplexSponge U) (n : Nat) :
    Option (DuplexSponge U × List U) :=
  if hn : n = 0 then some (s, [])
  else
    let p := if s.squeeze_pos = R then permute s.permutation else s.permutation
    let spos := if s.squeeze_pos = R then 0 else s.squeeze_pos
    if h : spos < R then
      match DuplexSponge.squeeze_unchecked permute R
          ⟨p, 0, spos + min n (R - spos)⟩ (n - min n (R - spos)) with
      | none => none
      | some (s', out) =>
        some (s', (p.drop spos).take (min n (R - spos)) ++ out)
    else none
termination_by n
decreasing_by
  have : 1 ≤ min n (R - spos) := by omega
  omega

theorem setSlice_setSlice {U : Type} (p : List U) (pos : Nat) (c1 c2 : List U) :
    setSlice (setSlice p pos c1) (pos + c1.length) c2 = setSlice p pos (c1 ++ c2) := by
  unfold setSlice
  rcases le_or_lt pos p.length with hle | hlt
  · simp only [List.take_append_eq_append_take, List.drop_append_eq_append_drop,
      List.length_take, List.length_append, List.append_assoc]
    rw [Nat.min_eq_left hle]
    simp [show pos + c1.length - pos = c1.length from by omega,
      show pos + c1.length - pos - c1.length = 0 from by omega,
      List.take_take, Nat.min_eq_right (by omega : pos ≤ pos + c1.length),
      List.take_all_of_le (le_refl c1.length),
      List.drop_eq_nil_of_le
        (by simp [List.length_take]; omega : (p.take pos).length ≤ pos + c1.length + c2.length),
      show pos + c1.length + c2.length - pos = c1.length + c2.length from by omega,
      List.drop_eq_nil_of_le (by omega : c1.length ≤ c1.length + c2.length),
      show pos + c1.length + (pos + c1.length + c2.length - pos - c1.length)
        = pos + (c1.length + c2.length) from by omega]
    rw [Nat.add_assoc]
  · simp only [List.take_append_eq_append_take, List.drop_append_eq_append_drop,
      List.length_take, List.length_append, List.append_assoc]
    rw [Nat.min_eq_right (by omega : p.length ≤ pos)]
    simp [List.take_all_of_le (by omega : p.length ≤ pos),
      List.take_all_of_le (by omega : p.length ≤ pos + c1.length),
      List.take_all_of_le (by omega : c1.length ≤ pos + c1.length - p.length),
      List.drop_eq_nil_of_le (by omega : p.length ≤ pos + c1.length + c2.length),
      List.drop_eq_nil_of_le (by omega : c1.length ≤ pos + c1.length + c2.length - p.length),
      List.drop_eq_nil_of_le (by omega : p.length ≤ pos + (c1.length + c2.length)),
      List.drop_eq_nil_of_le (by omega : p.length ≤ pos + c1.length)]

theorem absorbLoop_nil_right {U : Type} (permute : List U → List U) (R : Nat)
    (hR : 0 < R) (p : List U) (pos : Nat) (a : List U) :
    (absorbLoop permute R hR p pos a).bind
        (fun r => absorbLoop permute R hR r.1 r.2 [])
      = absorbLoop permute R hR p pos (a ++ []) := by
  rw [List.append_nil]
  cases habs : absorbLoop permute R hR p pos a with
  | none => rfl
  | some r => simp [absorbLoop.eq_1]

theorem absorbLoop_append {U : Type} (permute : List U → List U) (R : Nat)
    (hR : 0 < R) (b : List U) :
    ∀ (p : List U) (pos : Nat) (a : List U),
      absorbLoop permute R hR p pos (a ++ b)
        = (absorbLoop permute R hR p pos a).bind
            (fun r => absorbLoop permute R hR r.1 r.2 b) := by
  cases b with
  | nil => exact fun p pos a => (absorbLoop_nil_right permute R hR p pos a).symm
  | cons v b' =>
  suffices H : ∀ (m : Nat) (p : List U) (pos : Nat) (a : List U),
      2 * a.length + (if pos = R then 1 else 0) ≤ m →
      absorbLoop permute R hR p pos (a ++ v :: b')
        = (absorbLoop permute R hR p pos a).bind
            (fun r => absorbLoop permute R hR r.1 r.2 (v :: b')) by
    exact fun p pos a => H _ p pos a le_rfl
  intro m
  induction m with
  | zero =>
    intro p pos a h
    have ha : a = [] := by
      cases a with
      | nil => rfl
      | cons x xs => simp [List.length_cons] at h
    subst ha
    simp [absorbLoop.eq_1]
  | succ m ih =>
    intro p pos a h
    cases a with
    | nil => simp [absorbLoop.eq_1]
    | cons u rest =>
      rw [List.cons_append,
        absorbLoop.eq_2 permute R hR p pos u (rest ++ v :: b'),
        absorbLoop.eq_2 permute R hR p pos u rest]
      by_cases hEq : pos = R
      · rw [dif_pos hEq, dif_pos hEq, ← List.cons_append,
          ih (permute p) 0 (u :: rest) ?hm]
        case hm =>
          rw [if_pos hEq] at h
          rw [if_neg (by omega : (0 : Nat) ≠ R)]
          simp only [List.length_cons] at h ⊢
          omega
      · by_cases hlt : pos < R
        · rw [dif_neg hEq, dif_neg hEq, dif_pos hlt, dif_pos hlt]
          by_cases hL : R - pos ≤ rest.length + 1
          · have hCL : (u :: (rest ++ v :: b')).length ⊓ (R - pos) = R - pos := by
              simp [List.length_cons, List.length_append]; omega
            have hCR : (u :: rest).length ⊓ (R - pos) = R - pos := by
              simp [List.length_cons]; omega
            rw [hCL, hCR]
            simp only [← List.cons_append]
            rw [List.take_append_of_le_length
                (show R - pos ≤ (u :: rest).length by simp; omega),
              List.drop_append_of_le_length
                (show R - pos ≤ (u :: rest).length by simp; omega)]
            refine ih _ _ _ ?_
            rw [if_pos (by omega : pos + (R - pos) = R)]
            rw [if_neg hEq] at h
            simp only [List.length_drop, List.length_cons] at h ⊢
            omega
          · have hCR : (u :: rest).length ⊓ (R - pos) = (u :: rest).length := by
              simp [List.length_cons]; omega
            rw [hCR, List.take_length, List.drop_length, absorbLoop.eq_1]
            rw [Option.some_bind]
            rw [absorbLoop.eq_2 permute R hR (setSlice p pos (u :: rest))
              (pos + (u :: rest).length) v b']
            rw [dif_neg (show ¬ (pos + (u :: rest).length = R) by simp; omega),
              dif_pos (show pos + (u :: rest).length < R by simp; omega)]
            have hCL : (u :: (rest ++ v :: b')).length ⊓ (R - pos)
                = (u :: rest).length
                  + ((v :: b').length ⊓ (R - (pos + (u :: rest).length))) := by
              simp [List.length_cons, List.length_append]; omega
            rw [hCL]
            simp only [← List.cons_append]
            rw [List.take_append_eq_append_take, List.drop_append_eq_append_drop]
            rw [List.take_of_length_le
                (show (u :: rest).length
                  ≤ (u :: rest).length
                    + ((v :: b').length ⊓ (R - (pos + (u :: rest).length))) by omega),
              List.drop_eq_nil_of_le
                (show (u :: rest).length
                  ≤ (u :: rest).length
                    + ((v :: b').length ⊓ (R - (pos + (u :: rest).length))) by omega)]
            rw [show (u :: rest).length
                  + ((v :: b').length ⊓ (R - (pos + (u :: rest).length)))
                  - (u :: rest).length
                = (v :: b').length ⊓ (R - (pos + (u :: rest).length)) from by omega]
            rw [← setSlice_setSlice, ← Nat.add_assoc, List.nil_append]
        · rw [dif_neg hEq, dif_neg hEq, dif_neg hlt, dif_neg hlt]
          rfl

theorem absorb_unchecked_append {U : Type} (permute : List U → List U) (R : Nat)
    (hR : 0 < R) (s : DuplexSponge U) (a b : List U) :
    (DuplexSponge.absorb_unchecked permute R hR s a).bind
        (fun s' => DuplexSponge.absorb_unchecked permute R hR s' b)
      = DuplexSponge.absorb_unchecked permute R hR s (a ++ b) := by
  simp only [DuplexSponge.absorb_unchecked.eq_def]
  rw [absorbLoop_append]
  cases habs : absorbLoop permute R hR s.permutation s.absorb_pos a with
  | none => rfl
  | some r =>
    obtain ⟨p, pos⟩ := r
    rfl

theorem squeeze_zero {U : Type} (permute : List U → List U) (R : Nat)
    (s : DuplexSponge U) :
    DuplexSponge.squeeze_unchecked permute R s 0 = some (s, []) := by
  rw [DuplexSponge.squeeze_unchecked]
  rfl

/-- Claim C6 (amended): for every **nonempty** output buffer,
`squeeze_unchecked` resets `absorb_pos` to `0`, so afterwards the sponge's
`absorb_pos` equals `0`.  (The original claim extended this to the empty
buffer, but the source returns before the reset when `output.is_empty()` —
see the counterexample.) -/
theorem c6_squeeze_nonempty_resets_absorb_pos {U : Type} (permute : List U → List U)
    (R : Nat) (hR : 0 < R) :
    ∀ (n : Nat) (s : DuplexSponge U), s.squeeze_pos ≤ R → n ≠ 0 →
    ∃ s' out, DuplexSponge.squeeze_unchecked permute R s n = some (s', out)
      ∧ s'.absorb_pos = 0 := by
  intro n
  induction n using Nat.strong_induction_on with
  | _ n ihn =>
    intro s hspos hn
    rw [DuplexSponge.squeeze_unchecked, dif_neg hn]
    by_cases hsq : s.squeeze_pos = R
    · rw [if_pos hsq, if_pos hsq, dif_pos (show (0 : Nat) < R from hR)]
      by_cases hz : n - min n (R - 0) = 0
      · rw [hz, squeeze_zero]
        exact ⟨_, _, rfl, rfl⟩
      · obtain ⟨s', out, heq, habs⟩ := ihn (n - min n (R - 0)) (by omega)
          ⟨permute s.permutation, 0, 0 + min n (R - 0)⟩ (by simp <;> omega) hz
        rw [heq]
        exact ⟨s', _, rfl, habs⟩
    · have hlt : s.squeeze_pos < R := by omega
      rw [if_neg hsq, if_neg hsq, dif_pos hlt]
      by_cases hz : n - min n (R - s.squeeze_pos) = 0
      · rw [hz, squeeze_zero]
        exact ⟨_, _, rfl, rfl⟩
      · obtain ⟨s', out, heq, habs⟩ := ihn (n - min n (R - s.squeeze_pos)) (by omega)
          ⟨s.permutation, 0, s.squeeze_pos + min n (R - s.squeeze_pos)⟩ (by simp <;> omega) hz
        rw [heq]
        exact ⟨s', _, rfl, habs⟩

/-! ### Example interactions

`tpBegin`/`tpAtomic`/`tpEnd` mirror the repository's own `test_pattern_hash`
test: `Begin Protocol "test" None` (type `usize`), `Atomic Message
"test-message" Scalar` (type `Vec<f64>`), `End Protocol "test" None`. -/

/-- `Begin Protocol "test" None`, type name "usize". -/
def tpBegin : Interaction :=
  ⟨Hierarchy.Begin, Kind.Protocol, [116, 101, 115, 116],
   [117, 115, 105, 122, 101], Length.None⟩

/-- `Atomic Message "test-message" Scalar`, type name "Vec<f64>". -/
def tpAtomic : Interaction :=
  ⟨Hierarchy.Atomic, Kind.Message,
   [116, 101, 115, 116, 45, 109, 101, 115, 115, 97, 103, 101],
   [86, 101, 99, 60, 102, 54, 52, 62], Length.Scalar⟩

/-- `End Protocol "test" None`, type name "usize". -/
def tpEnd : Interaction :=
  ⟨Hierarchy.End, Kind.Protocol, [116, 101, 115, 116],
   [117, 115, 105, 122, 101], Length.None⟩

/-- `tpAtomic` with a different type name ("f64"): identical in every
committed field, differing only in the diagnostic type signature. -/
def tpAtomicOtherType : Interaction :=
  ⟨Hierarchy.Atomic, Kind.Message,
   [116, 101, 115, 116, 45, 109, 101, 115, 115, 97, 103, 101],
   [102, 54, 52], Length.Scalar⟩

/-- `tpAtomic` with kind `Hint` instead of `Message`. -/
def tpAtomicHint : Interaction :=
  ⟨Hierarchy.Atomic, Kind.Hint,
   [116, 101, 115, 116, 45, 109, 101, 115, 115, 97, 103, 101],
   [86, 101, 99, 60, 102, 54, 52, 62], Length.Scalar⟩

/-- `Begin Message "a" None`, type name "T". -/
def c1Begin : Interaction :=
  ⟨Hierarchy.Begin, Kind.Message, [97], [84], Length.None⟩

/-- `End Challenge "a" None`, type name "T": does not close `c1Begin`
(the kinds differ). -/
def c1End : Interaction :=
  ⟨Hierarchy.End, Kind.Challenge, [97], [84], Length.None⟩

/-! ### The claims -/

/-- Claim C1: the claim states that when validation pops an open `Begin` at
index `j` for an `End` at index `i` that does not close it, the
`MismatchedBeginEnd` error carries `begin_position = j` and
`end_position = i`.  On `[c1Begin, c1End]` the offending `End` sits at index
1, but the source stores `self.interactions.len()` in `end_position` (the
enumeration index is shadowed by the popped pair), so the error carries
`end_position = 2` and never the claimed `1`.  `begin_position = 0` is as
claimed. -/
theorem c1_mismatched_end_position_is_sequence_length :
    validate [c1Begin, c1End]
        = .error (.MismatchedBeginEnd 0 c1Begin 2 c1End)
      ∧ validate [c1Begin, c1End]
        ≠ .error (.MismatchedBeginEnd 0 c1Begin 1 c1End) := by
  decide

/-- The canonical rendering exactly as claim C2's words describe it
(refinement definition, for comparison with the source's rendering): the
count header, then every interaction rendered as exactly
`<Hierarchy> <Kind> <length-of-label> <label> <Length>` on its own line,
with no position prefix and no indentation. -/
def claimedCanonicalRender (interactions : List Interaction) : List Nat :=
  headerBytes interactions.length
    ++ (interactions.map (fun i => interactionAltBytes i ++ [10])).join

/-- Claim C2 (counterexample): on the repository's own test pattern the
canonical (alternate-mode) rendering is *not* the claimed
`<Hierarchy> <Kind> <length-of-label> <label> <Length>` per line — the
source also writes the zero-padded position and two spaces per open-`Begin`
depth in alternate mode. -/
theorem c2_counterexample :
    InteractionPattern.renderCanonical ⟨[tpBegin, tpAtomic, tpEnd]⟩
      ≠ claimedCanonicalRender [tpBegin, tpAtomic, tpEnd] := by
  decide

/-- The bytes of the string the repository's `test_pattern_hash` test
expects from the alternate-mode rendering:
`"Spongefish Transcript (3 interactions)\n0 Begin Protocol 4 test None\n1   Atomic Message 12 test-message Scalar\n2 End Protocol 4 test None\n"`
(note the indented line `1   Atomic …`). -/
def testPatternExpectedBytes : List Nat :=
  [83, 112, 111, 110, 103, 101, 102, 105, 115, 104, 32, 84, 114, 97, 110, 115,
   99, 114, 105, 112, 116, 32, 40, 51, 32, 105, 110, 116, 101, 114, 97, 99,
   116, 105, 111, 110, 115, 41, 10, 48, 32, 66, 101, 103, 105, 110, 32, 80,
   114, 111, 116, 111, 99, 111, 108, 32, 52, 32, 116, 101, 115, 116, 32, 78,
   111, 110, 101, 10, 49, 32, 32, 32, 65, 116, 111, 109, 105, 99, 32, 77,
   101, 115, 115, 97, 103, 101, 32, 49, 50, 32, 116, 101, 115, 116, 45, 109,
   101, 115, 115, 97, 103, 101, 32, 83, 99, 97, 108, 97, 114, 10, 50, 32, 69,
   110, 100, 32, 80, 114, 111, 116, 111, 99, 111, 108, 32, 52, 32, 116, 101,
   115, 116, 32, 78, 111, 110, 101, 10]

/-- Claim C2 (amended): in the canonical rendering each interaction line is
`<zero-padded position> <two spaces per open-Begin depth><Hierarchy> <Kind>
<length-of-label> <label> <Length>` — position prefix and indentation appear
in the canonical mode as well, exactly as the repository's own test vector
records; only the type signature is excluded (a pattern differing only in
type names renders to the same bytes). -/
theorem c2_canonical_rendering_matches_test_vector :
    InteractionPattern.renderCanonical ⟨[tpBegin, tpAtomic, tpEnd]⟩
        = testPatternExpectedBytes
      ∧ InteractionPattern.renderCanonical ⟨[tpBegin, tpAtomicOtherType, tpEnd]⟩
        = testPatternExpectedBytes := by
  decide

/-- Claim C3: the claim states that dropping an unfinalized recorder or
player is detected at destruction time and panics, for both.  The player's
`Drop` implementation indeed asserts `finalized`; but `pattern_state.rs`
contains no `Drop` implementation at all (despite its own doc comment
"Panics on Drop if there are unfinished interactions"), so dropping an
unfinalized `PatternState` is silent: its drop check accepts every state. -/
theorem c3_drop_check_player_only :
    PatternState.dropCheck ⟨[tpBegin], false⟩ = .ok ()
    ∧ (∀ st : PatternState, st.dropCheck = .ok ())
    ∧ (∀ pl : PatternPlayer, pl.finalized = false →
        pl.dropCheck = .error .droppedUnfinalized)
    ∧ (∀ pl : PatternPlayer, pl.finalized = true → pl.dropCheck = .ok ()) := by
  refine ⟨rfl, fun st => rfl, fun pl h => ?_, fun pl h => ?_⟩
  · simp [PatternPlayer.dropCheck, h]
  · simp [PatternPlayer.dropCheck, h]

/-- Witness for C3 at the freshly created player of the test pattern. -/
theorem c3_witness :
    (PatternPlayer.new ⟨[tpBegin]⟩).finalized = false
    ∧ (PatternPlayer.new ⟨[tpBegin]⟩).dropCheck = .error .droppedUnfinalized :=
  ⟨rfl, c3_drop_check_player_only.2.2.1 (PatternPlayer.new ⟨[tpBegin]⟩) rfl⟩

/-- Claim C4: `pattern_hash` is deterministic in the interaction sequence;
the canonical rendering (the hash preimage) differs whenever the committed
structure (hierarchy, kind, label or length of any interaction, or the
sequence length — `Interaction.shape`-wise) differs anywhere, including the
proper-prefix case; and patterns differing only in type signatures render
identically and hence hash identically.  `H` stands for SHA3-256, which
lives in the external `sha3` crate; all hash-level statements hold for every
`H`. -/
theorem c4_pattern_hash_structure (H : List Nat → List Nat)
    (p1 p2 : InteractionPattern) :
    (p1.interactions = p2.interactions →
      p1.pattern_hash H = p2.pattern_hash H)
    ∧ (p1.interactions.map Interaction.shape
        ≠ p2.interactions.map Interaction.shape →
      p1.renderCanonical ≠ p2.renderCanonical)
    ∧ (p1.interactions.map Interaction.shape
        = p2.interactions.map Interaction.shape →
      p1.renderCanonical = p2.renderCanonical
        ∧ p1.pattern_hash H = p2.pattern_hash H) := by
  refine ⟨?_, ?_, ?_⟩
  · intro h
    rw [InteractionPattern.pattern_hash, InteractionPattern.pattern_hash,
      InteractionPattern.renderCanonical, InteractionPattern.renderCanonical, h]
  · intro hne heq
    exact hne ((renderAlt_eq_iff_shape_eq p1.interactions p2.interactions).mp heq)
  · intro h
    have hr : p1.renderCanonical = p2.renderCanonical :=
      renderAlt_shape_congr p1.interactions p2.interactions h
    refine ⟨hr, ?_⟩
    rw [InteractionPattern.pattern_hash, InteractionPattern.pattern_hash, hr]

/-- Witness for C4: a kind change and a proper prefix both change the
rendering; a type-name-only change keeps rendering and hash equal. -/
theorem c4_witness :
    ([tpBegin, tpAtomic, tpEnd].map Interaction.shape
      ≠ [tpBegin, tpAtomicHint, tpEnd].map Interaction.shape)
    ∧ InteractionPattern.renderCanonical ⟨[tpBegin, tpAtomic, tpEnd]⟩
      ≠ InteractionPattern.renderCanonical ⟨[tpBegin, tpAtomicHint, tpEnd]⟩
    ∧ ([tpBegin, tpAtomic, tpEnd].map Interaction.shape
      ≠ [tpBegin].map Interaction.shape)
    ∧ InteractionPattern.renderCanonical ⟨[tpBegin, tpAtomic, tpEnd]⟩
      ≠ InteractionPattern.renderCanonical ⟨[tpBegin]⟩
    ∧ ([tpBegin, tpAtomic, tpEnd].map Interaction.shape
      = [tpBegin, tpAtomicOtherType, tpEnd].map Interaction.shape)
    ∧ (InteractionPattern.renderCanonical ⟨[tpBegin, tpAtomic, tpEnd]⟩
        = InteractionPattern.renderCanonical ⟨[tpBegin, tpAtomicOtherType, tpEnd]⟩
      ∧ InteractionPattern.pattern_hash id ⟨[tpBegin, tpAtomic, tpEnd]⟩
        = InteractionPattern.pattern_hash id ⟨[tpBegin, tpAtomicOtherType, tpEnd]⟩) :=
  ⟨by decide,
   (c4_pattern_hash_structure id ⟨[tpBegin, tpAtomic, tpEnd]⟩
     ⟨[tpBegin, tpAtomicHint, tpEnd]⟩).2.1 (by decide),
   by decide,
   (c4_pattern_hash_structure id ⟨[tpBegin, tpAtomic, tpEnd]⟩
     ⟨[tpBegin]⟩).2.1 (by decide),
   by decide,
   (c4_pattern_hash_structure id ⟨[tpBegin, tpAtomic, tpEnd]⟩
     ⟨[tpBegin, tpAtomicOtherType, tpEnd]⟩).2.2 (by decide)⟩

/-- Claim C5: absorbing `a` then `b` leaves the duplex sponge in exactly the
same state (permutation state, `absorb_pos` and `squeeze_pos`) as absorbing
`concat(a, b)` in one call — including empty `a` or `b` — and therefore all
subsequent squeeze output coincides. -/
theorem c5_absorb_associative {U : Type} (permute : List U → List U) (R : Nat)
    (hR : 0 < R) (s : DuplexSponge U) (a b : List U) :
    (DuplexSponge.absorb_unchecked permute R hR s a).bind
        (fun s' => DuplexSponge.absorb_unchecked permute R hR s' b)
      = DuplexSponge.absorb_unchecked permute R hR s (a ++ b)
    ∧ ∀ n : Nat,
      ((DuplexSponge.absorb_unchecked permute R hR s a).bind
          (fun s' => DuplexSponge.absorb_unchecked permute R hR s' b)).bind
          (fun s' => DuplexSponge.squeeze_unchecked permute R s' n)
        = (DuplexSponge.absorb_unchecked permute R hR s (a ++ b)).bind
          (fun s' => DuplexSponge.squeeze_unchecked permute R s' n) := by
  have h := absorb_unchecked_append permute R hR s a b
  exact ⟨h, fun n => by rw [h]⟩

/-- Witness for C5 with the Keccak rate geometry scaled down: rate `2`,
a three-unit state, a one-unit and a two-unit input (so the combined absorb
crosses a permute boundary). -/
theorem c5_witness :
    (0 : Nat) < 2
    ∧ (DuplexSponge.absorb_unchecked List.reverse 2 (by decide)
          (⟨[3, 4, 5], 1, 2⟩ : DuplexSponge Nat) [7]).bind
        (fun s' => DuplexSponge.absorb_unchecked List.reverse 2 (by decide) s' [8, 9])
      = DuplexSponge.absorb_unchecked List.reverse 2 (by decide)
          (⟨[3, 4, 5], 1, 2⟩ : DuplexSponge Nat) ([7] ++ [8, 9]) :=
  ⟨by decide,
   (c5_absorb_associative List.reverse 2 (by decide) ⟨[3, 4, 5], 1, 2⟩ [7] [8, 9]).1⟩

/-- Claim C6 (counterexample): a zero-length squeeze on a sponge whose
`absorb_pos` is `5` returns with `absorb_pos` still `5`: the
`output.is_empty()` early return precedes the `absorb_pos = 0` reset, so
"including the empty buffer" is false. -/
theorem c6_counterexample :
    DuplexSponge.squeeze_unchecked (fun p => p) 2
        (⟨[0, 0, 0], 5, 1⟩ : DuplexSponge Nat) 0
      = some (⟨[0, 0, 0], 5, 1⟩, [])
    ∧ (⟨[0, 0, 0], 5, 1⟩ : DuplexSponge Nat).absorb_pos ≠ 0 := by
  constructor
  · rw [DuplexSponge.squeeze_unchecked]
    rfl
  · decide

/-- Witness for C6 at rate `2`, a pending squeeze position `1` and output
length `3`. -/
theorem c6_witness :
    (0 : Nat) < 2
    ∧ (⟨[3, 4, 5], 7, 1⟩ : DuplexSponge Nat).squeeze_pos ≤ 2
    ∧ (3 : Nat) ≠ 0
    ∧ ∃ s' out,
      DuplexSponge.squeeze_unchecked List.reverse 2
          (⟨[3, 4, 5], 7, 1⟩ : DuplexSponge Nat) 3 = some (s', out)
        ∧ s'.absorb_pos = 0 :=
  ⟨by decide, by decide, by decide,
   c6_squeeze_nonempty_resets_absorb_pos List.reverse 2 (by decide) 3
     ⟨[3, 4, 5], 7, 1⟩ (by decide) (by decide)⟩

/-- Claim C7: a zero-length squeeze is a complete no-op: for every
permutation function, rate and sponge state it returns the state unchanged
(so no permutation can have been invoked), and any subsequent squeeze
behaves exactly as if the call had not happened. -/
theorem c7_squeeze_empty_noop {U : Type} (permute : List U → List U) (R : Nat)
    (s : DuplexSponge U) :
    DuplexSponge.squeeze_unchecked permute R s 0 = some (s, [])
    ∧ ∀ n : Nat,
      (DuplexSponge.squeeze_unchecked permute R s 0).bind
          (fun r => DuplexSponge.squeeze_unchecked permute R r.1 n)
        = DuplexSponge.squeeze_unchecked permute R s n := by
  refine ⟨squeeze_zero permute R s, fun n => ?_⟩
  rw [squeeze_zero]
  rfl

/-- `Atomic Challenge "nonce" Scalar`, type name "u64" (the spec's example
of an invalid atomic inside a `Message` block). -/
def nonceChallenge : Interaction :=
  ⟨Hierarchy.Atomic, Kind.Challenge, [110, 111, 110, 99, 101],
   [117, 54, 52], Length.Scalar⟩

/-- Claim C8: the four behaviours of `InteractionPattern::validate`, stated
over the loop `validateAux` for an arbitrary reached configuration:
an `End` with an empty stack of open `Begin`s fails with `MissingBegin` at
the `End`'s position; a non-empty stack at end of sequence fails with
`MissingEnd` naming the innermost (most recently pushed) still-open `Begin`;
an `Atomic` under an open `Begin` whose kind is neither `Protocol` nor the
`Atomic`'s kind fails with `InvalidKind`; and an `Atomic` with no open
`Begin` is always accepted (the loop just moves on). -/
theorem c8_validate_error_cases (total pos bpos : Nat) (i b : Interaction)
    (rest : List Interaction) (stack : List (Nat × Interaction)) :
    (∀ is : List Interaction, validate is = validateAux is.length is 0 [])
    ∧ (i.hierarchy = Hierarchy.End →
        validateAux total (i :: rest) pos [] = .error (.MissingBegin pos i))
    ∧ validateAux total [] pos ((bpos, b) :: stack)
        = .error (.MissingEnd bpos b)
    ∧ (i.hierarchy = Hierarchy.Atomic → b.kind ≠ Kind.Protocol →
        b.kind ≠ i.kind →
        validateAux total (i :: rest) pos ((bpos, b) :: stack)
          = .error (.InvalidKind bpos b pos i))
    ∧ (i.hierarchy = Hierarchy.Atomic →
        validateAux total (i :: rest) pos [] = validateAux total rest (pos + 1) []) := by
  refine ⟨fun is => rfl, fun h => ?_, rfl, fun h hk1 hk2 => ?_, fun h => ?_⟩
  · simp [validateAux, h]
  · simp [validateAux, h, hk1, hk2]
  · simp [validateAux, h]

/-- Witness for C8: an unmatched `End`, an unclosed `Begin`, a `Challenge`
atomic inside a `Message` block and a top-level atomic. -/
theorem c8_witness :
    validate [nonceChallenge] = validateAux 1 [nonceChallenge] 0 []
    ∧ validateAux 2 [c1End] 1 [] = .error (.MissingBegin 1 c1End)
    ∧ validateAux 3 [] 3 [(0, c1Begin)] = .error (.MissingEnd 0 c1Begin)
    ∧ validateAux 3 [nonceChallenge] 1 [(0, c1Begin)]
        = .error (.InvalidKind 0 c1Begin 1 nonceChallenge)
    ∧ validateAux 1 [nonceChallenge] 0 [] = validateAux 1 [] 1 [] :=
  ⟨(c8_validate_error_cases 1 0 0 nonceChallenge c1Begin [] []).1 [nonceChallenge],
   (c8_validate_error_cases 2 1 0 c1End c1Begin [] []).2.1 (by decide),
   (c8_validate_error_cases 3 3 0 c1End c1Begin [] []).2.2.1,
   (c8_validate_error_cases 3 1 0 nonceChallenge c1Begin [] []).2.2.2.1
     (by decide) (by decide) (by decide),
   (c8_validate_error_cases 1 0 0 nonceChallenge c1Begin [] []).2.2.2.2
     (by decide)⟩

/-- Claim C9: for an unfinalized `PatternPlayer`, `interact` with the cursor
past the end marks the player finalized and fails naming the received
interaction; a structural mismatch marks it finalized and fails naming both
received and expected; a match advances the cursor; and (for any player with
an in-range cursor, as every reachable player has) `finalize` fails exactly
when the player is already finalized or the cursor has not reached the
pattern's length, in the latter case reporting the next expected
interaction. -/
theorem c9_player_interact_finalize (pl : PatternPlayer) (i : Interaction)
    (hlen : pl.position ≤ pl.pattern.interactions.length) :
    (pl.finalized = false → pl.pattern.interactions.length ≤ pl.position →
      pl.interact i = .error (.noMoreExpected i, { pl with finalized := true }))
    ∧ (pl.finalized = false →
      ∀ h : pl.position < pl.pattern.interactions.length,
        pl.pattern.interactions.get ⟨pl.position, h⟩ ≠ i →
        pl.interact i
          = .error (.mismatch i (pl.pattern.interactions.get ⟨pl.position, h⟩),
            { pl with finalized := true }))
    ∧ (pl.finalized = false →
      ∀ h : pl.position < pl.pattern.interactions.length,
        pl.pattern.interactions.get ⟨pl.position, h⟩ = i →
        pl.interact i = .ok { pl with position := pl.position + 1 })
    ∧ (pl.finalize.isOk = false
        ↔ (pl.finalized = true ∨ pl.position < pl.pattern.interactions.length))
    ∧ (pl.finalized = false →
      ∀ h : pl.position < pl.pattern.interactions.length,
        pl.finalize
          = .error (.notFinished (pl.pattern.interactions.get ⟨pl.position, h⟩), pl)) := by
  refine ⟨fun hf hge => ?_, fun hf h hne => ?_, fun hf h heq => ?_, ?_, fun hf h => ?_⟩
  · simp [PatternPlayer.interact, hf, List.getElem?_eq_none hge]
  · rw [List.get_eq_getElem] at hne
    simp [PatternPlayer.interact, hf, List.getElem?_eq_getElem h, hne,
      List.get_eq_getElem]
  · rw [List.get_eq_getElem] at heq
    simp [PatternPlayer.interact, hf, List.getElem?_eq_getElem h, heq]
  · rw [PatternPlayer.finalize, if_neg (not_not_intro hlen)]
    by_cases hf : pl.finalized
    · simp [hf, Except.isOk, Except.toBool]
    · simp only [hf, Bool.false_eq_true, if_false]
      by_cases h : pl.position < pl.pattern.interactions.length
      · simp [dif_pos h, Except.isOk, Except.toBool, h]
      · simp [dif_neg h, Except.isOk, Except.toBool, h]
  · rw [PatternPlayer.finalize, if_neg (not_not_intro hlen)]
    simp [hf, dif_pos h]

/-- Witness for C9 over the one-interaction pattern `[nonceChallenge]`:
exhausted cursor, mismatch, match, and both finalize outcomes. -/
theorem c9_witness :
    PatternPlayer.interact ⟨⟨[nonceChallenge]⟩, 1, false⟩ nonceChallenge
        = .error (.noMoreExpected nonceChallenge, ⟨⟨[nonceChallenge]⟩, 1, true⟩)
    ∧ PatternPlayer.interact ⟨⟨[nonceChallenge]⟩, 0, false⟩ tpAtomic
        = .error (.mismatch tpAtomic nonceChallenge, ⟨⟨[nonceChallenge]⟩, 0, true⟩)
    ∧ PatternPlayer.interact ⟨⟨[nonceChallenge]⟩, 0, false⟩ nonceChallenge
        = .ok ⟨⟨[nonceChallenge]⟩, 1, false⟩
    ∧ ((PatternPlayer.finalize ⟨⟨[nonceChallenge]⟩, 0, false⟩).isOk = false
        ↔ ((false : Bool) = true ∨ (0 : Nat) < 1))
    ∧ PatternPlayer.finalize ⟨⟨[nonceChallenge]⟩, 0, false⟩
        = .error (.notFinished nonceChallenge, ⟨⟨[nonceChallenge]⟩, 0, false⟩) :=
  ⟨(c9_player_interact_finalize ⟨⟨[nonceChallenge]⟩, 1, false⟩ nonceChallenge
      (by decide)).1 rfl (by decide),
   (c9_player_interact_finalize ⟨⟨[nonceChallenge]⟩, 0, false⟩ tpAtomic
      (by decide)).2.1 rfl (by decide) (by decide),
   (c9_player_interact_finalize ⟨⟨[nonceChallenge]⟩, 0, false⟩ nonceChallenge
      (by decide)).2.2.1 rfl (by decide) (by decide),
   (c9_player_interact_finalize ⟨⟨[nonceChallenge]⟩, 0, false⟩ nonceChallenge
      (by decide)).2.2.2.1,
   (c9_player_interact_finalize ⟨⟨[nonceChallenge]⟩, 0, false⟩ nonceChallenge
      (by decide)).2.2.2.2 rfl (by decide)⟩

/-- `Begin Message "l1" None`, type name "T1". -/
def c10BeginMsg : Interaction :=
  ⟨Hierarchy.Begin, Kind.Message, [108, 49], [84, 49], Length.None⟩

/-- `Begin Challenge "l2" None`, type name "T2". -/
def c10BeginChal : Interaction :=
  ⟨Hierarchy.Begin, Kind.Challenge, [108, 50], [84, 50], Length.None⟩

/-- `End Challenge "l2" None`, closing `c10BeginChal`. -/
def c10EndChal : Interaction :=
  ⟨Hierarchy.End, Kind.Challenge, [108, 50], [84, 50], Length.None⟩

/-- `End Message "l1" None`, closing `c10BeginMsg`. -/
def c10EndMsg : Interaction :=
  ⟨Hierarchy.End, Kind.Message, [108, 49], [84, 49], Length.None⟩

/-- Claim C10: `PatternState::interact` applies the parent-kind check to
every new interaction whatever its hierarchy (first conjunct, used below on
a `Begin`), while standalone validation applies the kind check only to
atomics and pushes any `Begin` unconditionally (last conjunct).
Consequently the sequence `Begin Message · Begin Challenge · End Challenge ·
End Message` validates as an `InteractionPattern`, yet recording it through
`PatternState::interact` dies on the nested `Begin Challenge` with the
invalid-kind panic. -/
theorem c10_recorder_stricter_than_validation (st : PatternState)
    (i b : Interaction) (hf : st.finalized = false)
    (hob : last_open_begin st.interactions = some b)
    (hk1 : b.kind ≠ Kind.Protocol) (hk2 : b.kind ≠ i.kind) :
    st.interact i = .error (.invalidKind b.kind i.kind)
    ∧ validate [c10BeginMsg, c10BeginChal, c10EndChal, c10EndMsg] = .ok ()
    ∧ (PatternState.new.interact c10BeginMsg).bind
        (fun st' => st'.interact c10BeginChal)
      = .error (.invalidKind Kind.Message Kind.Challenge)
    ∧ ∀ (total pos : Nat) (rest : List Interaction)
        (stack : List (Nat × Interaction)) (j : Interaction),
        j.hierarchy = Hierarchy.Begin →
        validateAux total (j :: rest) pos stack
          = validateAux total rest (pos + 1) ((pos, j) :: stack) := by
  refine ⟨?_, by decide, by decide, fun total pos rest stack j hj => ?_⟩
  · simp [PatternState.interact, hf, hob, hk1, hk2]
  · simp [validateAux, hj]

/-- Witness for C10: the recorder refuses `Begin Challenge` directly under
the open `Begin Message`. -/
theorem c10_witness :
    (⟨[c10BeginMsg], false⟩ : PatternState).finalized = false
    ∧ last_open_begin [c10BeginMsg] = some c10BeginMsg
    ∧ c10BeginMsg.kind ≠ Kind.Protocol
    ∧ c10BeginMsg.kind ≠ c10BeginChal.kind
    ∧ PatternState.interact ⟨[c10BeginMsg], false⟩ c10BeginChal
      = .error (.invalidKind Kind.Message Kind.Challenge) :=
  ⟨by decide, by decide, by decide, by decide,
   (c10_recorder_stricter_than_validation ⟨[c10BeginMsg], false⟩ c10BeginChal
     c10BeginMsg (by decide) (by decide) (by decide) (by decide)).1⟩

end Spongefish
